import Mathlib

/-!
Verification development for the LSP-diagnostics subsystem of the reedline
repository.  Rust strings are embedded as lists of UTF-8 byte values
(List Nat, each < 256 for genuine buffers), machine integers as Nat or Int,
fallible operations (including Rust panics) as Option, and the two threads
of the client as explicit state passing over a single state record whose
channel fields model the three crossbeam channels.  Blocking reads from the
subprocess are embedded as an explicit list of read outcomes
(List (Option Msg)): the element none models a call to read_msg that
produced no message (its inner timeout elapsed, the frame was malformed, or
the stream ended), and a time budget in Nat models the number of reads the
enclosing wall-clock timeout admits.
-/

set_option maxRecDepth 4000

/-- Bytes of an ASCII string literal, used to transcribe the string
constants of the source. -/
def ascii (s : String) : List Nat := s.toList.map Char.toNat

/-! ## JSON values

serde_json::Value is embedded as the inductive Json below.  Numbers are
restricted to integers: the only numbers the subsystem itself produces are
the i32 request id and document version, and floating point payloads are
outside the embedding. Strings are kept as raw UTF-8 byte lists. -/

inductive Json where
  | null : Json
  | bool (b : Bool) : Json
  | num (n : Int) : Json
  | str (s : List Nat) : Json
  | arr (items : List Json) : Json
  | obj (fields : List (List Nat × Json)) : Json

/-! ## Decimal digits (serde_json integer output, str::parse input) -/

/-- Little-endian decimal digit values of n, driven by fuel so that the
definition is structural; fuel at least n yields all digits. -/
def natDigitsLE : Nat → Nat → List Nat
  | 0, _ => []
  | fuel + 1, n => if n = 0 then [] else n % 10 :: natDigitsLE fuel (n / 10)

/-- Decimal ASCII bytes of a Nat, most significant first, as serde_json
prints an unsigned integer. -/
def natToDec (n : Nat) : List Nat :=
  if n = 0 then [48] else ((natDigitsLE n n).reverse).map (fun d => d + 48)

/-- Decimal ASCII bytes of an Int, as serde_json prints an i32. -/
def intToDec (n : Int) : List Nat :=
  if n < 0 then 45 :: natToDec n.natAbs else natToDec n.toNat

/-- Value of a little-endian digit list. -/
def valLE (ds : List Nat) : Nat := ds.foldr (fun d acc => acc * 10 + d) 0

theorem valLE_natDigitsLE : ∀ (fuel n : Nat), n ≤ fuel →
    valLE (natDigitsLE fuel n) = n
  | 0, n, h => by
    simp only [natDigitsLE, valLE, List.foldr_nil]
    omega
  | fuel + 1, n, h => by
    simp only [natDigitsLE]
    split
    · simp only [valLE, List.foldr_nil]; omega
    · have hdiv : n / 10 ≤ fuel := by
        have := Nat.div_lt_self (by omega : 0 < n) (by omega : 1 < 10)
        omega
      have ih := valLE_natDigitsLE fuel (n / 10) hdiv
      simp only [valLE, List.foldr_cons] at *
      rw [ih]
      omega

theorem mem_natDigitsLE_lt : ∀ (fuel n d : Nat), d ∈ natDigitsLE fuel n → d < 10
  | 0, _, _, h => by simp [natDigitsLE] at h
  | fuel + 1, n, d, h => by
    simp only [natDigitsLE] at h
    split at h
    · simp at h
    · rcases List.mem_cons.mp h with h1 | h2
      · omega
      · exact mem_natDigitsLE_lt fuel (n / 10) d h2

/-- Every byte printed for a Nat is an ASCII digit. -/
theorem natToDec_digits (n : Nat) : ∀ b ∈ natToDec n, 48 ≤ b ∧ b ≤ 57 := by
  intro b hb
  unfold natToDec at hb
  split at hb
  · simp at hb; omega
  · simp only [List.mem_map, List.mem_reverse] at hb
    obtain ⟨d, hd, rfl⟩ := hb
    have := mem_natDigitsLE_lt n n d hd
    omega

theorem natToDec_ne_nil (n : Nat) : natToDec n ≠ [] := by
  unfold natToDec
  split
  · simp
  · simp only [ne_eq, List.map_eq_nil_iff, List.reverse_eq_nil_iff]
    cases n with
    | zero => omega
    | succ m =>
      simp [natDigitsLE]

/-! ## String escaping (serde_json string output) -/

/-- Lowercase hex digit byte for a value below 16. -/
def hexDigit (d : Nat) : Nat := if d < 10 then 48 + d else 87 + d

/-- Hex digit value of a byte, as serde_json reads an escape. -/
def hexVal (b : Nat) : Option Nat :=
  if 48 ≤ b ∧ b ≤ 57 then some (b - 48)
  else if 97 ≤ b ∧ b ≤ 102 then some (b - 87)
  else if 65 ≤ b ∧ b ≤ 70 then some (b - 55)
  else none

theorem hexVal_hexDigit (d : Nat) (h : d < 16) : hexVal (hexDigit d) = some d := by
  unfold hexDigit hexVal
  split <;> [skip; skip] <;> split <;> simp_all <;> omega

/-- Escape of one string byte, following the serde_json escape table:
quote and backslash get a two-byte escape, the five short control escapes
are used where they exist, the remaining control bytes become a four-digit
unicode escape, everything else is passed through. -/
def escapeByte (b : Nat) : List Nat :=
  if b = 34 then [92, 34]
  else if b = 92 then [92, 92]
  else if b = 8 then [92, 98]
  else if b = 9 then [92, 116]
  else if b = 10 then [92, 110]
  else if b = 12 then [92, 102]
  else if b = 13 then [92, 114]
  else if b < 32 then [92, 117, 48, 48, hexDigit (b / 16), hexDigit (b % 16)]
  else [b]

/-- Bytes of a JSON string literal: quote, escaped content, quote. -/
def printStringBytes (s : List Nat) : List Nat :=
  34 :: (s.flatMap escapeByte) ++ [34]

/-! ## JSON printer (serde_json::to_string, compact form) -/

mutual

/-- Compact serialization of a Json value, byte for byte the output of
serde_json::to_string. -/
def printJson : Json → List Nat
  | .null => ascii "null"
  | .bool true => ascii "true"
  | .bool false => ascii "false"
  | .num n => intToDec n
  | .str s => printStringBytes s
  | .arr items => 91 :: printItems items ++ [93]
  | .obj fields => 123 :: printFields fields ++ [125]

/-- Comma-separated serialization of array items. -/
def printItems : List Json → List Nat
  | [] => []
  | [v] => printJson v
  | v :: rest => printJson v ++ 44 :: printItems rest

/-- Comma-separated serialization of object fields. -/
def printFields : List (List Nat × Json) → List Nat
  | [] => []
  | [(k, v)] => printStringBytes k ++ 58 :: printJson v
  | (k, v) :: rest => printStringBytes k ++ 58 :: printJson v ++ 44 :: printFields rest

end

/-! ## The JSON-RPC envelope -/

/-- The Msg struct of the worker: the JSON-RPC envelope.  Field jsonrpc is
a plain string, every other field is optional and skipped when absent. -/
structure Msg where
  jsonrpc : List Nat
  id : Option Int
  method : Option (List Nat)
  params : Option Json
  result : Option Json
  error : Option Json

/-- Field list that serde produces for a Msg: declaration order, optional
fields skipped when none (serde skip_serializing_if on Option::is_none). -/
def msgFields (m : Msg) : List (List Nat × Json) :=
  (ascii "jsonrpc", Json.str m.jsonrpc) ::
    ((m.id.map (fun i => (ascii "id", Json.num i))).toList ++
     (m.method.map (fun s => (ascii "method", Json.str s))).toList ++
     (m.params.map (fun p => (ascii "params", p))).toList ++
     (m.result.map (fun r => (ascii "result", r))).toList ++
     (m.error.map (fun e => (ascii "error", e))).toList)

/-- serde_json::to_string of a Msg. -/
def encodeMsg (m : Msg) : List Nat := printJson (Json.obj (msgFields m))

/-- write_msg: the Content-Length framed bytes written for one message. -/
def write_msg (m : Msg) : List Nat :=
  let json := encodeMsg m
  ascii "Content-Length: " ++ natToDec json.length ++ [13, 10, 13, 10] ++ json

/-! ## JSON parser (serde_json::from_slice)

serde_json is an external crate; its parser is embedded here only as far
as the round-trip claims need: a recursive-descent reader of the compact
form, tolerant of the same inputs serde accepts on the envelope path.
Recursion over nested values is driven by a fuel argument so that the
definition is executable; fuel at least the size of the value suffices. -/

/-- UTF-8 bytes of a code point below 0x10000, for unicode escapes. -/
def utf8Encode (c : Nat) : List Nat :=
  if c < 128 then [c]
  else if c < 2048 then [192 + c / 64, 128 + c % 64]
  else [224 + c / 4096, 128 + c / 64 % 64, 128 + c % 64]

/-- Parse the body of a JSON string after the opening quote; returns the
unescaped bytes and the rest of the input. -/
def parseStringBody : List Nat → Option (List Nat × List Nat)
  | [] => none
  | b :: rest =>
    if b = 34 then some ([], rest)
    else if b = 92 then
      match rest with
      | [] => none
      | e :: rest2 =>
        if e = 34 ∨ e = 92 ∨ e = 47 then
          (parseStringBody rest2).map (fun p => (e :: p.1, p.2))
        else if e = 98 then (parseStringBody rest2).map (fun p => (8 :: p.1, p.2))
        else if e = 116 then (parseStringBody rest2).map (fun p => (9 :: p.1, p.2))
        else if e = 110 then (parseStringBody rest2).map (fun p => (10 :: p.1, p.2))
        else if e = 102 then (parseStringBody rest2).map (fun p => (12 :: p.1, p.2))
        else if e = 114 then (parseStringBody rest2).map (fun p => (13 :: p.1, p.2))
        else if e = 117 then
          match rest2 with
          | h1 :: h2 :: h3 :: h4 :: rest3 =>
            match hexVal h1, hexVal h2, hexVal h3, hexVal h4 with
            | some v1, some v2, some v3, some v4 =>
              (parseStringBody rest3).map
                (fun p => (utf8Encode (((v1 * 16 + v2) * 16 + v3) * 16 + v4) ++ p.1, p.2))
            | _, _, _, _ => none
          | _ => none
        else none
    else (parseStringBody rest).map (fun p => (b :: p.1, p.2))

/-- Is the byte an ASCII decimal digit. -/
def isDigitByte (b : Nat) : Bool := 48 ≤ b && b ≤ 57

/-- Greedy scan of a decimal number; fails on an empty digit run. -/
def parseNatBytes (input : List Nat) : Option (Nat × List Nat) :=
  let ds := input.takeWhile isDigitByte
  if ds.isEmpty then none
  else some (ds.foldl (fun acc d => acc * 10 + (d - 48)) 0, input.dropWhile isDigitByte)

mutual

/-- Recursive-descent reader of one compact JSON value. -/
def parseJson : Nat → List Nat → Option (Json × List Nat)
  | 0, _ => none
  | fuel + 1, input =>
    match input with
    | [] => none
    | b :: rest =>
      if b = 110 then
        match rest with
        | 117 :: 108 :: 108 :: r => some (.null, r)
        | _ => none
      else if b = 116 then
        match rest with
        | 114 :: 117 :: 101 :: r => some (.bool true, r)
        | _ => none
      else if b = 102 then
        match rest with
        | 97 :: 108 :: 115 :: 101 :: r => some (.bool false, r)
        | _ => none
      else if b = 34 then (parseStringBody rest).map (fun p => (.str p.1, p.2))
      else if b = 91 then
        if rest.head? = some 93 then some (.arr [], rest.tail)
        else (parseArrayItems fuel rest).map (fun p => (.arr p.1, p.2))
      else if b = 123 then
        if rest.head? = some 125 then some (.obj [], rest.tail)
        else (parseObjectFields fuel rest).map (fun p => (.obj p.1, p.2))
      else if b = 45 then (parseNatBytes rest).map (fun p => (.num (-(p.1 : Int)), p.2))
      else if isDigitByte b then
        (parseNatBytes (b :: rest)).map (fun p => (.num (p.1 : Int), p.2))
      else none

/-- Reader of one or more comma-separated array items up to the closing
bracket. -/
def parseArrayItems : Nat → List Nat → Option (List Json × List Nat)
  | 0, _ => none
  | fuel + 1, input =>
    (parseJson fuel input).bind (fun p =>
      match p.2 with
      | 44 :: rest => (parseArrayItems fuel rest).map (fun q => (p.1 :: q.1, q.2))
      | 93 :: rest => some ([p.1], rest)
      | _ => none)

/-- Reader of one or more comma-separated object fields up to the closing
brace. -/
def parseObjectFields : Nat → List Nat → Option (List (List Nat × Json) × List Nat)
  | 0, _ => none
  | fuel + 1, input =>
    match input with
    | 34 :: rest =>
      (parseStringBody rest).bind (fun kp =>
        match kp.2 with
        | 58 :: rest2 =>
          (parseJson fuel rest2).bind (fun vp =>
            match vp.2 with
            | 44 :: rest3 =>
              (parseObjectFields fuel rest3).map (fun q => ((kp.1, vp.1) :: q.1, q.2))
            | 125 :: rest3 => some ([(kp.1, vp.1)], rest3)
            | _ => none)
        | _ => none)
    | _ => none

end

/-- First value bound to a key in an object field list, as serde takes
struct fields from a JSON object. -/
def lookupField (fields : List (List Nat × Json)) (key : List Nat) : Option Json :=
  match fields with
  | [] => none
  | (k, v) :: rest => if k = key then some v else lookupField rest key

/-- serde reading of an Option of i32 struct field: absent or null gives
none, a number gives some, anything else is a type error. -/
def getOptInt (fields : List (List Nat × Json)) (key : List Nat) : Option (Option Int) :=
  match lookupField fields key with
  | none => some none
  | some .null => some none
  | some (.num i) => some (some i)
  | some _ => none

/-- serde reading of an Option of String struct field. -/
def getOptStr (fields : List (List Nat × Json)) (key : List Nat) :
    Option (Option (List Nat)) :=
  match lookupField fields key with
  | none => some none
  | some .null => some none
  | some (.str s) => some (some s)
  | some _ => none

/-- serde reading of an Option of Value struct field: a present null field
decodes to none, exactly as serde deserializes Option. -/
def getOptVal (fields : List (List Nat × Json)) (key : List Nat) : Option (Option Json) :=
  match lookupField fields key with
  | none => some none
  | some .null => some none
  | some v => some (some v)

/-- serde_json::from_slice for the Msg struct: parse one value, require
the whole input consumed, require an object, take the fields, unknown
fields ignored. -/
def decodeMsg (bytes : List Nat) : Option Msg :=
  match parseJson (bytes.length + 1) bytes with
  | some (.obj fields, []) =>
    match lookupField fields (ascii "jsonrpc") with
    | some (.str s) =>
      match getOptInt fields (ascii "id"), getOptStr fields (ascii "method"),
            getOptVal fields (ascii "params"), getOptVal fields (ascii "result"),
            getOptVal fields (ascii "error") with
      | some i, some mth, some p, some r, some e => some ⟨s, i, mth, p, r, e⟩
      | _, _, _, _, _ => none
    | _ => none
  | _ => none

/-! ## read_msg framing -/

/-- BufRead::read_line on a byte stream: take bytes up to and including
the first newline (or to the end of the stream); returns the line and the
rest. -/
def takeLine : List Nat → List Nat × List Nat
  | [] => ([], [])
  | b :: rest =>
    if b = 10 then ([b], rest)
    else
      let p := takeLine rest
      (b :: p.1, p.2)

/-- Strip an expected byte sequence from the head of a list, the embedding
of str::strip on the Content-Length header literal. -/
def stripHead : List Nat → List Nat → Option (List Nat)
  | [], l => some l
  | _ :: _, [] => none
  | p :: ps, b :: bs => if p = b then stripHead ps bs else none

/-- Is the byte ASCII whitespace (str::trim on header content). -/
def isWsByte (b : Nat) : Bool := b = 32 || b = 9 || b = 10 || b = 13

/-- str::trim on bytes: drop whitespace from both ends. -/
def trimBytes (l : List Nat) : List Nat :=
  ((l.dropWhile isWsByte).reverse.dropWhile isWsByte).reverse

/-- str::parse::<usize>: optional plus sign then one or more digits,
nothing else. -/
def parseUsize (l : List Nat) : Option Nat :=
  let ds := if l.head? = some 43 then l.tail else l
  if ds ≠ [] ∧ ds.all isDigitByte then
    some (ds.foldl (fun acc d => acc * 10 + (d - 48)) 0)
  else none

/-- read_msg: loop over header lines, bounded by fuel standing for the
wall-clock timeout check at the top of the loop; a read of zero bytes
(stream end) aborts, a Content-Length header is followed by the separator
line, an exact body read and a serde decode; a bad length or undecodable
body gives none. -/
def read_msg : Nat → List Nat → Option Msg
  | 0, _ => none
  | fuel + 1, input =>
    let p := takeLine input
    if p.1 = [] then none
    else
      match stripHead (ascii "Content-Length:") p.1 with
      | some tail =>
        match parseUsize (trimBytes tail) with
        | none => none
        | some len =>
          let q := takeLine p.2
          if q.2.length < len then none
          else decodeMsg (q.2.take len)
      | none => read_msg fuel p.2

/-! ## Printer and parser round trip -/

theorem hexVal_48 : hexVal 48 = some 0 := by decide

theorem parseStringBody_print : ∀ (s rest : List Nat),
    parseStringBody (s.flatMap escapeByte ++ 34 :: rest) = some (s, rest) := by
  intro s
  induction s with
  | nil =>
    intro rest
    rw [parseStringBody.eq_def]
    simp
  | cons b s ih =>
    intro rest
    simp only [List.flatMap_cons, List.append_assoc]
    by_cases h34 : b = 34
    · subst h34
      rw [show escapeByte 34 = [92, 34] from rfl]
      rw [List.cons_append, List.cons_append, List.nil_append, parseStringBody.eq_def]
      simp [ih]
    · by_cases h92 : b = 92
      · subst h92
        rw [show escapeByte 92 = [92, 92] from rfl]
        rw [List.cons_append, List.cons_append, List.nil_append, parseStringBody.eq_def]
        simp [ih]
      · by_cases h8 : b = 8
        · subst h8
          rw [show escapeByte 8 = [92, 98] from rfl]
          rw [List.cons_append, List.cons_append, List.nil_append, parseStringBody.eq_def]
          simp [ih]
        · by_cases h9 : b = 9
          · subst h9
            rw [show escapeByte 9 = [92, 116] from rfl]
            rw [List.cons_append, List.cons_append, List.nil_append, parseStringBody.eq_def]
            simp [ih]
          · by_cases h10 : b = 10
            · subst h10
              rw [show escapeByte 10 = [92, 110] from rfl]
              rw [List.cons_append, List.cons_append, List.nil_append, parseStringBody.eq_def]
              simp [ih]
            · by_cases h12 : b = 12
              · subst h12
                rw [show escapeByte 12 = [92, 102] from rfl]
                rw [List.cons_append, List.cons_append, List.nil_append,
                  parseStringBody.eq_def]
                simp [ih]
              · by_cases h13 : b = 13
                · subst h13
                  rw [show escapeByte 13 = [92, 114] from rfl]
                  rw [List.cons_append, List.cons_append, List.nil_append,
                    parseStringBody.eq_def]
                  simp [ih]
                · by_cases hc : b < 32
                  · have hdiv : b / 16 < 16 := by omega
                    have hmod : b % 16 < 16 := Nat.mod_lt _ (by omega)
                    have hesc : escapeByte b =
                        [92, 117, 48, 48, hexDigit (b / 16), hexDigit (b % 16)] := by
                      simp [escapeByte, h34, h92, h8, h9, h10, h12, h13, hc]
                    rw [hesc]
                    simp only [List.cons_append, List.nil_append]
                    rw [parseStringBody.eq_def]
                    simp only [hexVal_48, hexVal_hexDigit _ hdiv, hexVal_hexDigit _ hmod]
                    have hval : b / 16 * 16 + b % 16 = b := by omega
                    have hb128 : b < 128 := by omega
                    simp [utf8Encode, hval, hb128, ih]
                  · have hesc : escapeByte b = [b] := by
                      simp [escapeByte, h34, h92, h8, h9, h10, h12, h13, hc]
                    rw [hesc]
                    simp only [List.cons_append, List.nil_append]
                    rw [parseStringBody.eq_def]
                    simp [h34, h92, ih]

theorem takeWhile_append_all {p : Nat → Bool} : ∀ (l r : List Nat),
    (∀ b ∈ l, p b = true) → (∀ b, r.head? = some b → p b = false) →
    (l ++ r).takeWhile p = l ∧ (l ++ r).dropWhile p = r := by
  intro l
  induction l with
  | nil =>
    intro r _ hr
    constructor
    · cases r with
      | nil => rfl
      | cons b t =>
        simp only [List.nil_append, List.takeWhile_cons, hr b rfl]
        simp
    · cases r with
      | nil => rfl
      | cons b t =>
        simp only [List.nil_append, List.dropWhile_cons, hr b rfl]
        simp
  | cons a l ih =>
    intro r hl hr
    have ha : p a = true := hl a (List.mem_cons_self a l)
    have ih2 := ih r (fun b hb => hl b (List.mem_cons_of_mem a hb)) hr
    constructor
    · simp only [List.cons_append, List.takeWhile_cons, ha]
      simp [ih2.1]
    · simp only [List.cons_append, List.dropWhile_cons, ha]
      simp [ih2.2]

theorem foldl_digits_natToDec (n : Nat) :
    (natToDec n).foldl (fun acc d => acc * 10 + (d - 48)) 0 = n := by
  unfold natToDec
  split
  · simp
    omega
  · rw [List.foldl_map]
    simp only [Nat.add_sub_cancel]
    rw [List.foldl_reverse]
    have : ∀ (l : List Nat),
        l.foldr (fun x acc => acc * 10 + x) 0 = valLE l := by
      intro l; rfl
    rw [this]
    exact valLE_natDigitsLE n n (Nat.le_refl n)

/-- Reading back the decimal output of a Nat, with a non-digit (or
nothing) next in the stream. -/
theorem parseNatBytes_natToDec (n : Nat) (rest : List Nat)
    (h : ∀ b, rest.head? = some b → isDigitByte b = false) :
    parseNatBytes (natToDec n ++ rest) = some (n, rest) := by
  have hall : ∀ b ∈ natToDec n, isDigitByte b = true := by
    intro b hb
    have := natToDec_digits n b hb
    simp [isDigitByte]
    omega
  have hsplit := takeWhile_append_all (natToDec n) rest hall h
  unfold parseNatBytes
  rw [hsplit.1, hsplit.2]
  have hne := natToDec_ne_nil n
  simp only [List.isEmpty_iff, if_neg hne]
  rw [foldl_digits_natToDec]

/-! ## Size measure for parser fuel -/

mutual

/-- Node count of a Json value, a lower bound for the parser fuel. -/
def jsize : Json → Nat
  | .null => 1
  | .bool _ => 1
  | .num _ => 1
  | .str _ => 1
  | .arr items => 1 + jsizeItems items
  | .obj fields => 1 + jsizeFields fields

/-- Node count of array items. -/
def jsizeItems : List Json → Nat
  | [] => 0
  | v :: rest => 1 + jsize v + jsizeItems rest

/-- Node count of object fields. -/
def jsizeFields : List (List Nat × Json) → Nat
  | [] => 0
  | (_, v) :: rest => 1 + jsize v + jsizeFields rest

end

theorem one_le_jsize : ∀ v : Json, 1 ≤ jsize v
  | .null | .bool _ | .num _ | .str _ => Nat.le_refl 1
  | .arr _ => by simp [jsize]
  | .obj _ => by simp [jsize]

theorem intToDec_ne_nil (n : Int) : intToDec n ≠ [] := by
  unfold intToDec
  split
  · simp
  · exact natToDec_ne_nil _

/-- The first printed byte of any value is never a closing bracket, a
closing brace or a comma. -/
theorem printJson_head (v : Json) :
    ∃ b t, printJson v = b :: t ∧ b ≠ 93 ∧ b ≠ 125 ∧ b ≠ 44 := by
  cases v with
  | null => exact ⟨110, _, rfl, by omega, by omega, by omega⟩
  | bool b =>
    cases b with
    | true => exact ⟨116, _, rfl, by omega, by omega, by omega⟩
    | false => exact ⟨102, _, rfl, by omega, by omega, by omega⟩
  | num n =>
    rw [show printJson (.num n) = intToDec n from rfl]
    unfold intToDec
    split
    · exact ⟨45, _, rfl, by omega, by omega, by omega⟩
    · obtain ⟨b, t, hbt⟩ : ∃ b t, natToDec n.toNat = b :: t := by
        cases hn : natToDec n.toNat with
        | nil => exact absurd hn (natToDec_ne_nil _)
        | cons b t => exact ⟨b, t, rfl⟩
      have hb := natToDec_digits n.toNat b (by rw [hbt]; exact List.mem_cons_self _ _)
      exact ⟨b, t, hbt, by omega, by omega, by omega⟩
  | str s => exact ⟨34, _, rfl, by omega, by omega, by omega⟩
  | arr items => exact ⟨91, _, rfl, by omega, by omega, by omega⟩
  | obj fields => exact ⟨123, _, rfl, by omega, by omega, by omega⟩

/-- Condition that the next stream byte (if any) cannot extend a decimal
number, true after every printed value inside an envelope. -/
def headNonDigit (l : List Nat) : Prop :=
  ∀ b, l.head? = some b → isDigitByte b = false

theorem headNonDigit_cons {b : Nat} {l : List Nat} (h : isDigitByte b = false) :
    headNonDigit (b :: l) := by
  intro b' hb'
  simp only [List.head?_cons, Option.some.injEq] at hb'
  rw [← hb']
  exact h

theorem headNonDigit_nil : headNonDigit [] := by
  intro b hb
  simp at hb

/-- The first printed byte of a nonempty item list is never a closing
bracket, closing brace or comma. -/
theorem printItems_head (items : List Json) (hne : items ≠ []) :
    ∃ b t, printItems items = b :: t ∧ b ≠ 93 ∧ b ≠ 125 ∧ b ≠ 44 := by
  cases items with
  | nil => exact absurd rfl hne
  | cons v tl =>
    obtain ⟨b, t, hbt, h93, h125, h44⟩ := printJson_head v
    cases tl with
    | nil => exact ⟨b, t, by simp [printItems, hbt], h93, h125, h44⟩
    | cons y ys =>
      exact ⟨b, t ++ 44 :: printItems (y :: ys),
        by simp [printItems, hbt], h93, h125, h44⟩

/-- The first printed byte of a nonempty field list is a double quote. -/
theorem printFields_head (fields : List (List Nat × Json)) (hne : fields ≠ []) :
    ∃ t, printFields fields = 34 :: t := by
  cases fields with
  | nil => exact absurd rfl hne
  | cons kv tl =>
    obtain ⟨k, v⟩ := kv
    cases tl with
    | nil =>
      refine ⟨(k.flatMap escapeByte ++ [34]) ++ 58 :: printJson v, ?_⟩
      rw [show printFields [(k, v)] = printStringBytes k ++ 58 :: printJson v from rfl,
        show printStringBytes k = 34 :: (k.flatMap escapeByte) ++ [34] from rfl]
      simp [List.cons_append, List.append_assoc]
    | cons g gs =>
      refine ⟨(k.flatMap escapeByte ++ [34]) ++ 58 :: printJson v ++
        44 :: printFields (g :: gs), ?_⟩
      rw [show printFields ((k, v) :: g :: gs) =
          printStringBytes k ++ 58 :: printJson v ++ 44 :: printFields (g :: gs) from rfl,
        show printStringBytes k = 34 :: (k.flatMap escapeByte) ++ [34] from rfl]
      simp [List.cons_append, List.append_assoc]

/-- Round trip of the compact printer through the reader, for any fuel at
least the node count of the value. -/
theorem printParse : ∀ fuel : Nat,
    (∀ (v : Json) (rest : List Nat), jsize v ≤ fuel → headNonDigit rest →
      parseJson fuel (printJson v ++ rest) = some (v, rest)) ∧
    (∀ (items : List Json) (rest : List Nat), items ≠ [] → jsizeItems items ≤ fuel →
      parseArrayItems fuel (printItems items ++ 93 :: rest) = some (items, rest)) ∧
    (∀ (fields : List (List Nat × Json)) (rest : List Nat), fields ≠ [] →
      jsizeFields fields ≤ fuel →
      parseObjectFields fuel (printFields fields ++ 125 :: rest) = some (fields, rest)) := by
  intro fuel
  induction fuel with
  | zero =>
    refine ⟨fun v rest hs _ => absurd hs (by have := one_le_jsize v; omega), ?_, ?_⟩
    · intro items rest hne hs
      cases items with
      | nil => exact absurd rfl hne
      | cons v tl =>
        exfalso
        have := one_le_jsize v
        simp only [jsizeItems] at hs
        omega
    · intro fields rest hne hs
      cases fields with
      | nil => exact absurd rfl hne
      | cons kv tl =>
        obtain ⟨k, v⟩ := kv
        exfalso
        have := one_le_jsize v
        simp only [jsizeFields] at hs
        omega
  | succ fuel ih =>
    obtain ⟨ih1, ih2, ih3⟩ := ih
    refine ⟨?_, ?_, ?_⟩
    · -- one value
      intro v rest hsize hnd
      cases v with
      | null =>
        rw [show printJson .null = [110, 117, 108, 108] from rfl]
        simp only [List.cons_append, List.nil_append]
        rfl
      | bool b =>
        cases b with
        | true =>
          rw [show printJson (.bool true) = [116, 114, 117, 101] from rfl]
          simp only [List.cons_append, List.nil_append]
          rfl
        | false =>
          rw [show printJson (.bool false) = [102, 97, 108, 115, 101] from rfl]
          simp only [List.cons_append, List.nil_append]
          rfl
      | num n =>
        rw [show printJson (.num n) = intToDec n from rfl]
        unfold intToDec
        by_cases hneg : n < 0
        · -- negative
          rw [if_pos hneg]
          simp only [List.cons_append]
          rw [show ∀ X : List Nat, parseJson (fuel + 1) (45 :: X) =
            (parseNatBytes X).map (fun p => (Json.num (-(p.1 : Int)), p.2)) from fun X => rfl]
          rw [parseNatBytes_natToDec _ rest hnd]
          simp only [Option.map_some']
          rw [show -(n.natAbs : Int) = n from by omega]
        · -- nonnegative
          rw [if_neg hneg]
          obtain ⟨b, t, hbt⟩ : ∃ b t, natToDec n.toNat = b :: t := by
            cases hn : natToDec n.toNat with
            | nil => exact absurd hn (natToDec_ne_nil _)
            | cons b t => exact ⟨b, t, rfl⟩
          have hbd := natToDec_digits n.toNat b (by rw [hbt]; exact List.mem_cons_self _ _)
          rw [hbt]
          simp only [List.cons_append]
          rw [parseJson.eq_def]
          simp only []
          rw [if_neg (by omega : ¬b = 110), if_neg (by omega : ¬b = 116),
            if_neg (by omega : ¬b = 102), if_neg (by omega : ¬b = 34),
            if_neg (by omega : ¬b = 91), if_neg (by omega : ¬b = 123),
            if_neg (by omega : ¬b = 45),
            if_pos (by simp [isDigitByte]; omega : isDigitByte b = true)]
          rw [← List.cons_append, ← hbt, parseNatBytes_natToDec _ rest hnd]
          simp only [Option.map_some']
          rw [show ((n.toNat : Int)) = n from by omega]
      | str s =>
        rw [show printJson (.str s) = 34 :: (s.flatMap escapeByte) ++ [34] from rfl]
        simp only [List.cons_append, List.append_assoc, List.nil_append]
        rw [show ∀ X : List Nat, parseJson (fuel + 1) (34 :: X) =
          (parseStringBody X).map (fun p => (Json.str p.1, p.2)) from fun X => rfl]
        rw [parseStringBody_print]
        rfl
      | arr items =>
        cases items with
        | nil =>
          rw [show printJson (.arr []) = [91, 93] from rfl]
          simp only [List.cons_append, List.nil_append]
          rfl
        | cons x xs =>
          rw [show printJson (.arr (x :: xs)) = 91 :: printItems (x :: xs) ++ [93] from rfl]
          simp only [List.cons_append, List.append_assoc, List.nil_append]
          rw [show ∀ X : List Nat, parseJson (fuel + 1) (91 :: X) =
            (if X.head? = some 93 then some (Json.arr [], X.tail)
             else (parseArrayItems fuel X).map (fun p => (Json.arr p.1, p.2)))
            from fun X => rfl]
          obtain ⟨b, t, hbt, h93, _, _⟩ := printItems_head (x :: xs) (by simp)
          rw [hbt]
          simp only [List.cons_append, List.head?_cons]
          rw [if_neg (by simp [h93])]
          rw [← List.cons_append, ← hbt]
          have hs : jsizeItems (x :: xs) ≤ fuel := by
            simp only [jsize] at hsize
            omega
          rw [ih2 (x :: xs) rest (by simp) hs]
          rfl
      | obj fields =>
        cases fields with
        | nil =>
          rw [show printJson (.obj []) = [123, 125] from rfl]
          simp only [List.cons_append, List.nil_append]
          rfl
        | cons kv tl =>
          rw [show printJson (.obj (kv :: tl)) = 123 :: printFields (kv :: tl) ++ [125]
            from rfl]
          simp only [List.cons_append, List.append_assoc, List.nil_append]
          rw [show ∀ X : List Nat, parseJson (fuel + 1) (123 :: X) =
            (if X.head? = some 125 then some (Json.obj [], X.tail)
             else (parseObjectFields fuel X).map (fun p => (Json.obj p.1, p.2)))
            from fun X => rfl]
          obtain ⟨t, hbt⟩ := printFields_head (kv :: tl) (by simp)
          rw [hbt]
          simp only [List.cons_append, List.head?_cons]
          rw [if_neg (by simp)]
          rw [← List.cons_append, ← hbt]
          have hs : jsizeFields (kv :: tl) ≤ fuel := by
            simp only [jsize] at hsize
            omega
          rw [ih3 (kv :: tl) rest (by simp) hs]
          rfl
    · -- array items
      intro items rest hne hsize
      cases items with
      | nil => exact absurd rfl hne
      | cons v tl =>
        have hred : ∀ X : List Nat, parseArrayItems (fuel + 1) X =
            (parseJson fuel X).bind (fun p =>
              match p.2 with
              | 44 :: r => (parseArrayItems fuel r).map (fun q => (p.1 :: q.1, q.2))
              | 93 :: r => some ([p.1], r)
              | _ => none) := fun X => rfl
        cases tl with
        | nil =>
          rw [show printItems [v] = printJson v from rfl, hred]
          have hsv : jsize v ≤ fuel := by
            simp only [jsizeItems] at hsize
            omega
          rw [ih1 v (93 :: rest) hsv (headNonDigit_cons (by decide))]
          rfl
        | cons y ys =>
          rw [show printItems (v :: y :: ys) = printJson v ++ 44 :: printItems (y :: ys)
            from rfl, hred]
          simp only [List.cons_append, List.append_assoc]
          have hsv : jsize v ≤ fuel := by
            simp only [jsizeItems] at hsize
            have := one_le_jsize y
            omega
          rw [ih1 v (44 :: (printItems (y :: ys) ++ 93 :: rest)) hsv
            (headNonDigit_cons (by decide))]
          simp only [Option.some_bind]
          have hstl : jsizeItems (y :: ys) ≤ fuel := by
            simp only [jsizeItems] at hsize ⊢
            have := one_le_jsize v
            omega
          rw [ih2 (y :: ys) rest (by simp) hstl]
          rfl
    · -- object fields
      intro fields rest hne hsize
      cases fields with
      | nil => exact absurd rfl hne
      | cons kv tl =>
        obtain ⟨k, v⟩ := kv
        have hred : ∀ X : List Nat, parseObjectFields (fuel + 1) (34 :: X) =
            (parseStringBody X).bind (fun kp =>
              match kp.2 with
              | 58 :: rest2 =>
                (parseJson fuel rest2).bind (fun vp =>
                  match vp.2 with
                  | 44 :: rest3 =>
                    (parseObjectFields fuel rest3).map (fun q => ((kp.1, vp.1) :: q.1, q.2))
                  | 125 :: rest3 => some ([(kp.1, vp.1)], rest3)
                  | _ => none)
              | _ => none) := fun X => rfl
        cases tl with
        | nil =>
          rw [show printFields [(k, v)] = printStringBytes k ++ 58 :: printJson v from rfl,
            show printStringBytes k = 34 :: (k.flatMap escapeByte) ++ [34] from rfl]
          simp only [List.cons_append, List.append_assoc, List.nil_append]
          rw [hred, parseStringBody_print]
          simp only [Option.some_bind]
          have hsv : jsize v ≤ fuel := by
            simp only [jsizeFields] at hsize
            omega
          rw [ih1 v (125 :: rest) hsv (headNonDigit_cons (by decide))]
          rfl
        | cons g gs =>
          rw [show printFields ((k, v) :: g :: gs) =
              printStringBytes k ++ 58 :: printJson v ++ 44 :: printFields (g :: gs) from rfl,
            show printStringBytes k = 34 :: (k.flatMap escapeByte) ++ [34] from rfl]
          simp only [List.cons_append, List.append_assoc, List.nil_append]
          rw [hred, parseStringBody_print]
          simp only [Option.some_bind]
          have hsv : jsize v ≤ fuel := by
            simp only [jsizeFields] at hsize
            have := one_le_jsize g.2
            omega
          rw [ih1 v (44 :: (printFields (g :: gs) ++ 125 :: rest)) hsv
            (headNonDigit_cons (by decide))]
          simp only [Option.some_bind]
          have hstl : jsizeFields (g :: gs) ≤ fuel := by
            simp only [jsizeFields] at hsize ⊢
            have := one_le_jsize v
            omega
          rw [ih3 (g :: gs) rest (by simp) hstl]
          rfl

mutual

/-- The node count of a value is at most the length of its printed form,
so the printed length bounds the parser fuel. -/
theorem jsize_le_length : ∀ v : Json, jsize v ≤ (printJson v).length
  | .null => by simp [jsize, printJson, ascii]
  | .bool b => by cases b <;> simp [jsize, printJson, ascii]
  | .num n => by
    have := intToDec_ne_nil n
    have : 1 ≤ (intToDec n).length := by
      cases h : intToDec n with
      | nil => exact absurd h this
      | cons a t => simp
    simp [jsize, printJson]
    omega
  | .str s => by simp [jsize, printJson, printStringBytes]
  | .arr items => by
    have h := jsizeItems_le_length items
    simp [jsize, printJson]
    omega
  | .obj fields => by
    have h := jsizeFields_le_length fields
    simp [jsize, printJson]
    omega

/-- Item-list node count against printed length, allowing one for the
closing bracket. -/
theorem jsizeItems_le_length : ∀ items : List Json,
    jsizeItems items ≤ (printItems items).length + 1
  | [] => by simp [jsizeItems, printItems]
  | [v] => by
    have := jsize_le_length v
    simp [jsizeItems, printItems]
    omega
  | v :: y :: ys => by
    have h1 := jsize_le_length v
    have h2 := jsizeItems_le_length (y :: ys)
    simp only [jsizeItems, printItems, List.length_append, List.length_cons] at *
    omega

/-- Field-list node count against printed length. -/
theorem jsizeFields_le_length : ∀ fields : List (List Nat × Json),
    jsizeFields fields ≤ (printFields fields).length + 1
  | [] => by simp [jsizeFields, printFields]
  | [(k, v)] => by
    have := jsize_le_length v
    simp [jsizeFields, printFields, printStringBytes]
    omega
  | (k, v) :: g :: gs => by
    have h1 := jsize_le_length v
    have h2 := jsizeFields_le_length (g :: gs)
    simp only [jsizeFields, printFields, printStringBytes, List.length_append,
      List.length_cons] at *
    omega

end

/-! ## Envelope decode of the envelope encode -/

theorem lookupField_append (l1 l2 : List (List Nat × Json)) (key : List Nat) :
    lookupField (l1 ++ l2) key =
      match lookupField l1 key with
      | some v => some v
      | none => lookupField l2 key := by
  induction l1 with
  | nil => simp [lookupField]
  | cons kv tl ih =>
    obtain ⟨k, v⟩ := kv
    by_cases hk : k = key
    · simp [lookupField, hk]
    · simp [lookupField, hk, ih]

theorem lookupField_optSeg {α : Type} (o : Option α) (kx : List Nat) (g : α → Json)
    (key : List Nat) (hne : kx ≠ key) :
    lookupField ((o.map (fun x => (kx, g x))).toList) key = none := by
  cases o <;> simp [lookupField, hne]

theorem lookupField_optSeg_same {α : Type} (o : Option α) (kx : List Nat) (g : α → Json) :
    lookupField ((o.map (fun x => (kx, g x))).toList) kx = o.map g := by
  cases o <;> simp [lookupField]

theorem lookup_msg_jsonrpc (m : Msg) :
    lookupField (msgFields m) (ascii "jsonrpc") = some (.str m.jsonrpc) := by
  unfold msgFields
  rw [lookupField, if_pos rfl]

theorem lookup_msg_id (m : Msg) :
    lookupField (msgFields m) (ascii "id") = m.id.map Json.num := by
  unfold msgFields
  rw [lookupField, if_neg (by decide), lookupField_append, lookupField_append,
    lookupField_append, lookupField_append, lookupField_optSeg_same,
    lookupField_optSeg _ _ _ _ (by decide), lookupField_optSeg _ _ _ _ (by decide),
    lookupField_optSeg _ _ _ _ (by decide), lookupField_optSeg _ _ _ _ (by decide)]
  cases m.id with
  | some i => simp
  | none => simp

theorem lookup_msg_method (m : Msg) :
    lookupField (msgFields m) (ascii "method") = m.method.map Json.str := by
  unfold msgFields
  rw [lookupField, if_neg (by decide), lookupField_append, lookupField_append,
    lookupField_append, lookupField_append, lookupField_optSeg_same,
    lookupField_optSeg _ _ _ _ (by decide), lookupField_optSeg _ _ _ _ (by decide),
    lookupField_optSeg _ _ _ _ (by decide), lookupField_optSeg _ _ _ _ (by decide)]
  cases m.method with
  | some s => simp
  | none => simp

theorem lookup_msg_params (m : Msg) :
    lookupField (msgFields m) (ascii "params") = m.params := by
  unfold msgFields
  rw [lookupField, if_neg (by decide), lookupField_append, lookupField_append,
    lookupField_append, lookupField_append, lookupField_optSeg_same,
    lookupField_optSeg _ _ _ _ (by decide), lookupField_optSeg _ _ _ _ (by decide),
    lookupField_optSeg _ _ _ _ (by decide), lookupField_optSeg _ _ _ _ (by decide)]
  cases m.params with
  | some p => simp
  | none => simp

theorem lookup_msg_result (m : Msg) :
    lookupField (msgFields m) (ascii "result") = m.result := by
  unfold msgFields
  rw [lookupField, if_neg (by decide), lookupField_append, lookupField_append,
    lookupField_append, lookupField_append, lookupField_optSeg_same,
    lookupField_optSeg _ _ _ _ (by decide), lookupField_optSeg _ _ _ _ (by decide),
    lookupField_optSeg _ _ _ _ (by decide), lookupField_optSeg _ _ _ _ (by decide)]
  cases m.result with
  | some r => simp
  | none => simp

theorem lookup_msg_error (m : Msg) :
    lookupField (msgFields m) (ascii "error") = m.error := by
  unfold msgFields
  rw [lookupField, if_neg (by decide), lookupField_append, lookupField_append,
    lookupField_append, lookupField_append, lookupField_optSeg_same,
    lookupField_optSeg _ _ _ _ (by decide), lookupField_optSeg _ _ _ _ (by decide),
    lookupField_optSeg _ _ _ _ (by decide), lookupField_optSeg _ _ _ _ (by decide)]
  cases m.error with
  | some e => simp
  | none => simp

theorem getOptVal_of_lookup {fields : List (List Nat × Json)} {key : List Nat}
    {v : Json} (h : lookupField fields key = some v) (hv : v ≠ .null) :
    getOptVal fields key = some (some v) := by
  unfold getOptVal
  rw [h]
  cases v with
  | null => exact absurd rfl hv
  | bool b => rfl
  | num n => rfl
  | str s => rfl
  | arr items => rfl
  | obj fs => rfl

theorem getOptVal_of_lookup_none {fields : List (List Nat × Json)} {key : List Nat}
    (h : lookupField fields key = none) : getOptVal fields key = some none := by
  unfold getOptVal
  rw [h]

/-- serde decode of the serde encode of an envelope recovers the envelope,
as long as no optional payload field is a present null (such a field
decodes back to an absent one). -/
theorem decodeMsg_encodeMsg (m : Msg) (hp : m.params ≠ some .null)
    (hr : m.result ≠ some .null) (he : m.error ≠ some .null) :
    decodeMsg (encodeMsg m) = some m := by
  have hparse : parseJson ((encodeMsg m).length + 1) (encodeMsg m) =
      some (.obj (msgFields m), []) := by
    have hfuel : jsize (.obj (msgFields m)) ≤ (encodeMsg m).length + 1 := by
      have := jsize_le_length (.obj (msgFields m))
      unfold encodeMsg
      omega
    have h1 := (printParse ((encodeMsg m).length + 1)).1 (.obj (msgFields m)) []
      hfuel headNonDigit_nil
    rw [List.append_nil] at h1
    exact h1
  unfold decodeMsg
  rw [hparse]
  simp only []
  rw [lookup_msg_jsonrpc]
  have hid : getOptInt (msgFields m) (ascii "id") = some m.id := by
    unfold getOptInt
    rw [lookup_msg_id]
    cases m.id with
    | some i => rfl
    | none => rfl
  have hmth : getOptStr (msgFields m) (ascii "method") = some m.method := by
    unfold getOptStr
    rw [lookup_msg_method]
    cases m.method with
    | some s => rfl
    | none => rfl
  have hpv : getOptVal (msgFields m) (ascii "params") = some m.params := by
    cases hmp : m.params with
    | none => exact getOptVal_of_lookup_none (by rw [lookup_msg_params, hmp])
    | some p =>
      have : p ≠ .null := by
        intro hnull
        exact hp (by rw [hmp, hnull])
      exact getOptVal_of_lookup (by rw [lookup_msg_params, hmp]) this
  have hrv : getOptVal (msgFields m) (ascii "result") = some m.result := by
    cases hmr : m.result with
    | none => exact getOptVal_of_lookup_none (by rw [lookup_msg_result, hmr])
    | some r =>
      have : r ≠ .null := by
        intro hnull
        exact hr (by rw [hmr, hnull])
      exact getOptVal_of_lookup (by rw [lookup_msg_result, hmr]) this
  have hev : getOptVal (msgFields m) (ascii "error") = some m.error := by
    cases hme : m.error with
    | none => exact getOptVal_of_lookup_none (by rw [lookup_msg_error, hme])
    | some e =>
      have : e ≠ .null := by
        intro hnull
        exact he (by rw [hme, hnull])
      exact getOptVal_of_lookup (by rw [lookup_msg_error, hme]) this
  rw [hid, hmth, hpv, hrv, hev]

/-! ## The framed round trip through the wire codec -/

theorem takeLine_append (pre rest : List Nat) (h : ∀ b ∈ pre, b ≠ 10) :
    takeLine (pre ++ 10 :: rest) = (pre ++ [10], rest) := by
  induction pre with
  | nil => rfl
  | cons b t ih =>
    have hb : b ≠ 10 := h b (List.mem_cons_self _ _)
    simp only [List.cons_append, takeLine, if_neg hb, List.append_eq,
      ih (fun x hx => h x (List.mem_cons_of_mem _ hx))]

theorem stripHead_pre : ∀ (p t : List Nat), stripHead p (p ++ t) = some t := by
  intro p
  induction p with
  | nil => intro t; rfl
  | cons b bs ih =>
    intro t
    simp only [List.cons_append, stripHead, if_pos rfl]
    exact ih t

theorem dropWhile_false {p : Nat → Bool} : ∀ l : List Nat,
    (∀ b ∈ l, p b = false) → l.dropWhile p = l := by
  intro l h
  cases l with
  | nil => rfl
  | cons b t =>
    rw [List.dropWhile_cons, h b (List.mem_cons_self _ _)]
    simp

theorem isWsByte_digit {b : Nat} (h : 48 ≤ b ∧ b ≤ 57) : isWsByte b = false := by
  simp only [isWsByte]
  simp
  omega

theorem trimBytes_header (ds : List Nat) (hne : ds ≠ [])
    (hds : ∀ b ∈ ds, 48 ≤ b ∧ b ≤ 57) :
    trimBytes (32 :: (ds ++ [13, 10])) = ds := by
  obtain ⟨d, t, rfl⟩ : ∃ d t, ds = d :: t := by
    cases ds with
    | nil => exact absurd rfl hne
    | cons d t => exact ⟨d, t, rfl⟩
  unfold trimBytes
  have h1 : List.dropWhile isWsByte (32 :: (d :: t ++ [13, 10])) = d :: t ++ [13, 10] := by
    have := (@takeWhile_append_all isWsByte [32] ((d :: t) ++ [13, 10]) (by decide)
      (fun b hb => by
        simp only [List.cons_append, List.head?_cons, Option.some.injEq] at hb
        rw [← hb]
        exact isWsByte_digit (hds d (List.mem_cons_self _ _)))).2
    simpa using this
  rw [h1]
  have h2 : ((d :: t ++ [13, 10] : List Nat)).reverse =
      [10, 13] ++ (d :: t).reverse := by simp
  rw [h2]
  have h3 : List.dropWhile isWsByte ([10, 13] ++ (d :: t).reverse) = (d :: t).reverse := by
    have hrev : ∃ a r, (d :: t).reverse = a :: r := by
      cases hx : (d :: t).reverse with
      | nil =>
        have hlen := congrArg List.length hx
        simp at hlen
      | cons a r => exact ⟨a, r, rfl⟩
    obtain ⟨a, r, har⟩ := hrev
    exact (@takeWhile_append_all isWsByte [10, 13] ((d :: t).reverse) (by decide)
      (fun b hb => by
        rw [har] at hb
        simp only [List.head?_cons, Option.some.injEq] at hb
        have hmem : b ∈ (d :: t).reverse := by
          rw [har, ← hb]
          exact List.mem_cons_self _ _
        rw [List.mem_reverse] at hmem
        exact isWsByte_digit (hds b hmem))).2
  rw [h3]
  simp

theorem parseUsize_natToDec (n : Nat) : parseUsize (natToDec n) = some n := by
  obtain ⟨d, t, hdt⟩ : ∃ d t, natToDec n = d :: t := by
    cases hn : natToDec n with
    | nil => exact absurd hn (natToDec_ne_nil _)
    | cons d t => exact ⟨d, t, rfl⟩
  have hd := natToDec_digits n d (by rw [hdt]; exact List.mem_cons_self _ _)
  have hhead : ¬((natToDec n).head? = some 43) := by
    rw [hdt]
    simp only [List.head?_cons, Option.some.injEq]
    omega
  have hcond : natToDec n ≠ [] ∧ (natToDec n).all isDigitByte := by
    refine ⟨natToDec_ne_nil n, ?_⟩
    rw [List.all_eq_true]
    intro b hb
    have := natToDec_digits n b hb
    simp only [isDigitByte, Bool.and_eq_true, decide_eq_true_eq]
    omega
  unfold parseUsize
  simp only [if_neg hhead, if_pos hcond]
  rw [foldl_digits_natToDec]

theorem header_literal_no_lf : ∀ b ∈ ascii "Content-Length: ", b ≠ 10 := by decide

theorem header_literal_split : ascii "Content-Length: " = ascii "Content-Length:" ++ [32] := by
  decide

set_option maxHeartbeats 1000000 in
/-- Wire round trip: a framed envelope written by write_msg and read back
by read_msg (with at least one header-loop step available) yields the
envelope, under the proviso of decodeMsg_encodeMsg on present null
payload fields. -/
theorem read_msg_write_msg (m : Msg) (fuel : Nat) (hp : m.params ≠ some .null)
    (hr : m.result ≠ some .null) (he : m.error ≠ some .null) :
    read_msg (fuel + 1) (write_msg m) = some m := by
  have hjson := decodeMsg_encodeMsg m hp hr he
  have hin : write_msg m =
      (ascii "Content-Length: " ++ natToDec (encodeMsg m).length ++ [13]) ++
        10 :: (13 :: 10 :: encodeMsg m) := by
    unfold write_msg
    simp [List.append_assoc]
  have hpre : ∀ b ∈ ascii "Content-Length: " ++ natToDec (encodeMsg m).length ++ [13],
      b ≠ 10 := by
    intro b hb
    simp only [List.mem_append] at hb
    rcases hb with (hb | hb) | hb
    · exact header_literal_no_lf b hb
    · have := natToDec_digits _ b hb
      omega
    · simp at hb
      omega
  have htl := takeLine_append _ (13 :: 10 :: encodeMsg m) hpre
  have hline : ((ascii "Content-Length: " ++ natToDec (encodeMsg m).length ++ [13])
      ++ [10] : List Nat) =
      ascii "Content-Length:" ++ (32 :: (natToDec (encodeMsg m).length ++ [13, 10])) := by
    rw [header_literal_split]
    simp
  have hstrip : stripHead (ascii "Content-Length:")
      ((ascii "Content-Length: " ++ natToDec (encodeMsg m).length ++ [13]) ++ [10]) =
      some (32 :: (natToDec (encodeMsg m).length ++ [13, 10])) := by
    rw [hline]
    exact stripHead_pre _ _
  have hlen : parseUsize (trimBytes (32 :: (natToDec (encodeMsg m).length ++ [13, 10]))) =
      some (encodeMsg m).length := by
    rw [trimBytes_header _ (natToDec_ne_nil _) (natToDec_digits _)]
    exact parseUsize_natToDec _
  rw [show ∀ input, read_msg (fuel + 1) input =
    (if (takeLine input).1 = [] then none
     else
       match stripHead (ascii "Content-Length:") (takeLine input).1 with
       | some tail =>
         match parseUsize (trimBytes tail) with
         | none => none
         | some len =>
           if (takeLine (takeLine input).2).2.length < len then none
           else decodeMsg ((takeLine (takeLine input).2).2.take len)
       | none => read_msg fuel (takeLine input).2) from fun _ => rfl]
  rw [hin, htl]
  dsimp only
  rw [if_neg (show ¬((ascii "Content-Length: " ++ natToDec (encodeMsg m).length ++ [13])
    ++ [10] = []) from by simp)]
  rw [hstrip]
  dsimp only
  rw [hlen]
  dsimp only
  rw [show takeLine (13 :: 10 :: encodeMsg m) = ([13, 10], encodeMsg m) from rfl]
  dsimp only
  rw [if_neg (show ¬(encodeMsg m).length < (encodeMsg m).length from by omega)]
  rw [List.take_length]
  exact hjson

/-! ## Content fingerprint (std DefaultHasher = SipHash-1-3, zero keys)

hash_str in client.rs feeds the UTF-8 bytes of the string and a trailing
0xff byte (the std Hash impl for str) into a DefaultHasher.  The algorithm
is embedded on Nat with explicit reduction mod 2^64. -/

/-- Addition wrapping at 64 bits. -/
def wadd64 (a b : Nat) : Nat := (a + b) % (2 ^ 64)

/-- Left rotation of a 64-bit word. -/
def rotl64 (x n : Nat) : Nat := ((x <<< n) % (2 ^ 64)) ||| (x >>> (64 - n))

/-- The four SipHash state words. -/
structure SipState where
  v0 : Nat
  v1 : Nat
  v2 : Nat
  v3 : Nat

/-- One SipRound. -/
def sipRound (s : SipState) : SipState :=
  let a0 := wadd64 s.v0 s.v1
  let a1 := rotl64 s.v1 13 ^^^ a0
  let a0r := rotl64 a0 32
  let a2 := wadd64 s.v2 s.v3
  let a3 := rotl64 s.v3 16 ^^^ a2
  let b0 := wadd64 a0r a3
  let b3 := rotl64 a3 21 ^^^ b0
  let b2 := wadd64 a2 a1
  let b1 := rotl64 a1 17 ^^^ b2
  let b2r := rotl64 b2 32
  ⟨b0, b1, b2r, b3⟩

/-- Little-endian value of a byte list. -/
def leBytesVal (bs : List Nat) : Nat := bs.foldr (fun b acc => b + (acc <<< 8)) 0

/-- Compress all full 8-byte blocks with one round each (SipHash-1-3 has
one compression round); returns the state and the trailing partial block. -/
def sipChunks : List Nat → SipState → SipState × List Nat
  | b0 :: b1 :: b2 :: b3 :: b4 :: b5 :: b6 :: b7 :: rest, s =>
    let mi := leBytesVal [b0, b1, b2, b3, b4, b5, b6, b7]
    let s1 := sipRound { s with v3 := s.v3 ^^^ mi }
    sipChunks rest { s1 with v0 := s1.v0 ^^^ mi }
  | rest, s => (s, rest)

/-- SipHash-1-3 with both keys zero, the DefaultHasher of std. -/
def siphash13 (bytes : List Nat) : Nat :=
  let s0 : SipState :=
    ⟨0x736f6d6570736575, 0x646f72616e646f6d, 0x6c7967656e657261, 0x7465646279746573⟩
  let pr := sipChunks bytes s0
  let b := ((bytes.length % 256) <<< 56) ||| leBytesVal pr.2
  let s1 := sipRound { pr.1 with v3 := pr.1.v3 ^^^ b }
  let s2 := { s1 with v0 := s1.v0 ^^^ b }
  let s3 := sipRound (sipRound (sipRound { s2 with v2 := s2.v2 ^^^ 0xff }))
  ((s3.v0 ^^^ s3.v1) ^^^ s3.v2) ^^^ s3.v3

/-- hash_str of client.rs: hash the bytes then the 0xff terminator that
the std Hash impl for str appends. -/
def hash_str (s : List Nat) : Nat := siphash13 (s ++ [255])

/-! ## Data model of the client and worker -/

/-- Byte-offset span, half open. -/
structure Span where
  start : Nat
  stop : Nat

/-- TextEditInfo of the fix menu: span, replacement bytes, original bytes. -/
structure TextEditInfo where
  span : Span
  replacement : List Nat
  original : List Nat

/-- FixAction: either buffer edits or a server command. -/
inductive FixAction where
  | TextEdits (edits : List TextEditInfo) : FixAction
  | Command (command : List Nat) (arguments : List Json) : FixAction

/-- FixInfo: a titled action. -/
structure FixInfo where
  title : List Nat
  action : FixAction

/-- Commands travelling on the foreground-to-worker channel.  A diagnostic
is an opaque payload (its Json value) throughout this embedding. -/
inductive LspCommand where
  | UpdateContent (content : List Nat) : LspCommand
  | RequestCodeActions (content : List Nat) (span : Span) : LspCommand
  | ExecuteCommand (command : List Nat) (arguments : List Json) : LspCommand
  | Shutdown : LspCommand

/-- Responses travelling on the worker-to-foreground channel. -/
inductive LspResponse where
  | Diagnostics (diags : List Json) : LspResponse
  | CodeActions (actions : List Json) : LspResponse
  | CommandExecuted (success : Bool) : LspResponse

/-- Connection: the live session.  The subprocess pipes are abstracted to
the id counter and the log of bytes written; reads are passed to the
functions that perform them as an explicit list of read outcomes. -/
structure Conn where
  next_id : Int
  writer : List Nat

/-- The shared state of one client instance: the three bounded channels
(commands capacity 32, responses capacity 32, wake capacity 1 modelled as
a Bool slot), the foreground cache, and the worker fields. -/
structure LspState where
  commandCh : List LspCommand
  responseCh : List LspResponse
  wakeCh : Bool
  diagnostics : List Json
  last_content_hash : Nat
  uri : List Nat
  conn : Option Conn
  version : Int

/-- crossbeam try_send on a bounded channel: append when below capacity,
silently drop otherwise. -/
def trySend {α : Type} (cap : Nat) (x : α) (ch : List α) : List α :=
  if ch.length < cap then ch ++ [x] else ch

/-! ## Fix application engine (diagnostic_fix_menu.rs) -/

/-- str::is_char_boundary of Rust: offset zero, the byte length, or a
position holding a byte that is not a UTF-8 continuation byte. -/
def isCharBoundary (buf : List Nat) (i : Nat) : Bool :=
  if i = 0 then true
  else
    match buf.get? i with
    | some b => if 128 ≤ b ∧ b < 192 then false else true
    | none => decide (i = buf.length)

/-- String::replace_range: replaces the byte range when the bounds are
ordered, in range and on character boundaries, and panics (none)
otherwise. -/
def replaceRangeBytes (buf : List Nat) (start stop : Nat) (repl : List Nat) :
    Option (List Nat) :=
  if start ≤ stop ∧ stop ≤ buf.length ∧
      isCharBoundary buf start = true ∧ isCharBoundary buf stop = true then
    some (buf.take start ++ repl ++ buf.drop stop)
  else none

/-- Stable insertion before the first element with a strictly smaller
start offset; together with sortDescByStart this is the stable descending
sort that sort_by_key with Reverse(span.start) performs. -/
def insertDescByStart (e : TextEditInfo) : List TextEditInfo → List TextEditInfo
  | [] => [e]
  | f :: rest =>
    if f.span.start ≤ e.span.start then e :: f :: rest
    else f :: insertDescByStart e rest

/-- Stable sort of the edits by descending start offset. -/
def sortDescByStart : List TextEditInfo → List TextEditInfo
  | [] => []
  | e :: rest => insertDescByStart e (sortDescByStart rest)

/-- The line buffer: buffer bytes and insertion point. -/
structure EditorSt where
  buffer : List Nat
  insertion_point : Nat

/-- The fold of replace_in_buffer over the sorted edits: each step clamps
both bounds to the current buffer length, then replaces the range; a
panicking replace_range aborts the whole application (none). -/
def applyEditsFold : List TextEditInfo → List Nat → Option (List Nat)
  | [], buf => some buf
  | e :: rest, buf =>
    match replaceRangeBytes buf (min e.span.start buf.length)
        (min e.span.stop buf.length) e.replacement with
    | some buf2 => applyEditsFold rest buf2
    | none => none

/-- replace_in_buffer of the fix menu.  A TextEdits fix sorts the edits by
descending start, folds the replacements over the buffer, and puts the
cursor at start + replacement length of the last sorted edit (the edit
with the smallest original start), clamped to the new buffer length.  A
Command fix delegates to the command sender and leaves the buffer alone;
with no selected fix the editor is untouched. -/
def replace_in_buffer (fixes : List FixInfo) (selected : Nat) (ed : EditorSt) :
    Option EditorSt :=
  match fixes.get? selected with
  | none => some ed
  | some fix =>
    match fix.action with
    | .TextEdits edits =>
      let sorted := sortDescByStart edits
      match applyEditsFold sorted ed.buffer with
      | none => none
      | some newBuf =>
        let cursor :=
          match sorted.getLast? with
          | some e => e.span.start + e.replacement.length
          | none => ed.insertion_point
        some ⟨newBuf, min cursor newBuf.length⟩
    | .Command _ _ => some ed

/-! ## Client handle (client.rs) -/

/-- update_content: empty content only clears the cached diagnostics;
otherwise the content fingerprint is compared with the stored one and, on
a difference, stored and the command forwarded with a lossy bounded send. -/
def update_content (p : LspState) (content : List Nat) : LspState :=
  if content.isEmpty then { p with diagnostics := [] }
  else
    let h := hash_str content
    if h ≠ p.last_content_hash then
      { p with
        last_content_hash := h,
        commandCh := trySend 32 (.UpdateContent content) p.commandCh }
    else p

/-- poll_responses: drain the response channel, keeping the last
diagnostics list (last write wins) and ignoring the other kinds. -/
def poll_responses (p : LspState) : LspState :=
  { p with
    diagnostics := p.responseCh.foldl (fun acc r =>
      match r with
      | .Diagnostics d => d
      | _ => acc) p.diagnostics,
    responseCh := [] }

/-- check_wake: non-blocking take of the 1-slot wake; when it was set,
drain responses and report true. -/
def check_wake (p : LspState) : Bool × LspState :=
  if p.wakeCh then (true, poll_responses { p with wakeCh := false })
  else (false, p)

/-- diagnostics(): drain pending responses, then return the cache. -/
def diagnostics (p : LspState) : List Json × LspState :=
  let p2 := poll_responses p
  (p2.diagnostics, p2)

/-- The provider state right after new(): empty channels, empty cache,
stored fingerprint zero, no connection, version zero. -/
def initialState (uri : List Nat) : LspState :=
  ⟨[], [], false, [], 0, uri, none, 0⟩

/-! ## Worker (worker.rs) -/

/-- send_diagnostics: lossy send of the diagnostics response plus the
best-effort wake; a failing wake send leaves the slot set, so the slot is
simply true afterwards. -/
def send_diagnostics (d : List Json) (w : LspState) : LspState :=
  { w with
    responseCh := trySend 32 (.Diagnostics d) w.responseCh,
    wakeCh := true }

/-- The read loop inside request: read until a message with the matching
id arrives, returning its result field, bounded by the time budget; a
failed read just loops. -/
def request_core (id : Int) : List (Option Msg) → Nat → Option Json
  | _, 0 => none
  | [], _ => none
  | r :: rest, budget + 1 =>
    match r with
    | some resp => if resp.id == some id then resp.result else request_core id rest budget
    | none => request_core id rest budget

/-- request: allocate the next id, write the envelope through the wire
codec, then loop-read for the matching response. -/
def request (c : Conn) (method : List Nat) (params : Json) (reads : List (Option Msg))
    (budget : Nat) : Option Json × Conn :=
  let id := c.next_id
  let msg : Msg := ⟨ascii "2.0", some id, some method, some params, none, none⟩
  (request_core id reads budget, ⟨id + 1, c.writer ++ write_msg msg⟩)

/-- notify: fire-and-forget write of an id-less envelope. -/
def notify (c : Conn) (method : List Nat) (params : Json) : Conn :=
  { c with
    writer := c.writer ++ write_msg ⟨ascii "2.0", none, some method, some params, none, none⟩ }

/-- The didChange params, as lsp_types serializes them on the wire. -/
def didChangeParams (uri : List Nat) (version : Int) (content : List Nat) : Json :=
  .obj [(ascii "textDocument",
          .obj [(ascii "uri", .str uri), (ascii "version", .num version)]),
        (ascii "contentChanges", .arr [.obj [(ascii "text", .str content)]])]

/-- The workspace/executeCommand params, as lsp_types serializes them. -/
def executeCommandParams (command : List Nat) (arguments : List Json) : Json :=
  .obj [(ascii "command", .str command), (ascii "arguments", .arr arguments)]

/-- PublishDiagnosticsParams, with the diagnostics kept opaque (spec: the
diagnostic payload is passed through unmodified). -/
structure PublishDiagnosticsParams where
  uri : List Nat
  diagnostics : List Json

/-- The lsp_types deserialization of PublishDiagnosticsParams, embedded as
extraction of the uri string and the diagnostics array. -/
def parsePublishDiagnostics (j : Json) : Option PublishDiagnosticsParams :=
  match j with
  | .obj fields =>
    match lookupField fields (ascii "uri"), lookupField fields (ascii "diagnostics") with
    | some (.str u), some (.arr ds) => some ⟨u, ds⟩
    | _, _ => none
  | _ => none

/-- The messages an iterator built with iter::from_fn over read_msg
yields: the successful reads before the first failed one. -/
def msgsUntilNone : List (Option Msg) → List Msg
  | [] => []
  | none :: _ => []
  | some msg :: rest => msg :: msgsUntilNone rest

/-- poll_for_diagnostics: the from_fn stream (which ends at the first
failed read), cut by the time budget of take_while on the elapsed clock,
filtered to publishDiagnostics notifications with parseable params, first
hit wins. -/
def poll_for_diagnostics (reads : List (Option Msg)) (budget : Nat) : Option (List Json) :=
  (((((msgsUntilNone reads).take budget).filter
      (fun msg => msg.method == some (ascii "textDocument/publishDiagnostics"))).filterMap
      Msg.params).filterMap parsePublishDiagnostics).head?.map
    PublishDiagnosticsParams.diagnostics

/-- The poll the spec describes: keep reading incoming messages for up to
the timeout, a failed read being only "no message yet", and emit the
diagnostic list of the first publishDiagnostics notification seen. -/
def poll_for_diagnostics_claim (reads : List (Option Msg)) (budget : Nat) :
    Option (List Json) :=
  ((((reads.take budget).filterMap id).filter
      (fun msg => msg.method == some (ascii "textDocument/publishDiagnostics"))).filterMap
      Msg.params |>.filterMap parsePublishDiagnostics).head?.map
    PublishDiagnosticsParams.diagnostics

/-- ensure_init: keep an existing connection; otherwise install the
outcome of try_init, which spawns the subprocess and runs the handshake
and is therefore passed in as the spawn outcome. -/
def ensure_init (w : LspState) (spawn : Option Conn) : LspState × Bool :=
  if w.conn.isSome then (w, true)
  else
    let w2 := { w with conn := spawn }
    (w2, w2.conn.isSome)

/-- handle_update_content: empty content emits empty diagnostics at once;
otherwise ensure the connection (no-op when the handshake fails),
increment the version, send didChange, and poll for diagnostics, emitting
only when the poll produced a list. -/
def handle_update_content (w : LspState) (content : List Nat) (spawn : Option Conn)
    (reads : List (Option Msg)) (budget : Nat) : LspState :=
  if content.isEmpty then send_diagnostics [] w
  else
    let pr := ensure_init w spawn
    if pr.2 then
      let w2 := { pr.1 with version := pr.1.version + 1 }
      match w2.conn with
      | none => w2
      | some c =>
        let c2 := notify c (ascii "textDocument/didChange")
          (didChangeParams w2.uri w2.version content)
        let w3 := { w2 with conn := some c2 }
        match poll_for_diagnostics reads budget with
        | some d => send_diagnostics d w3
        | none => w3
    else pr.1

/-- handle_execute_command: success exactly when a connection exists and
the request returned a result value; the flag is sent lossily. -/
def handle_execute_command (w : LspState) (command : List Nat) (arguments : List Json)
    (reads : List (Option Msg)) (budget : Nat) : LspState :=
  match w.conn with
  | none => { w with responseCh := trySend 32 (.CommandExecuted false) w.responseCh }
  | some c =>
    let pr := request c (ascii "workspace/executeCommand")
      (executeCommandParams command arguments) reads budget
    { w with
      conn := some pr.2,
      responseCh := trySend 32 (.CommandExecuted pr.1.isSome) w.responseCh }

/-- The first response whose id matches, within the time budget: the
message the spec means by "the response to the request". -/
def firstResponseTo (id : Int) : List (Option Msg) → Nat → Option Msg
  | _, 0 => none
  | [], _ => none
  | r :: rest, budget + 1 =>
    match r with
    | some resp => if resp.id == some id then some resp else firstResponseTo id rest budget
    | none => firstResponseTo id rest budget

theorem mem_insertDescByStart {x e : TextEditInfo} :
    ∀ {l : List TextEditInfo}, x ∈ insertDescByStart e l → x = e ∨ x ∈ l := by
  intro l
  induction l with
  | nil =>
    intro h
    simp [insertDescByStart] at h
    exact Or.inl h
  | cons f rest ih =>
    intro h
    simp only [insertDescByStart] at h
    split at h
    · rcases List.mem_cons.mp h with h1 | h2
      · exact Or.inl h1
      · exact Or.inr h2
    · rcases List.mem_cons.mp h with h1 | h2
      · exact Or.inr (List.mem_cons.mpr (Or.inl h1))
      · rcases ih h2 with h3 | h4
        · exact Or.inl h3
        · exact Or.inr (List.mem_cons.mpr (Or.inr h4))

theorem mem_sortDescByStart {x : TextEditInfo} :
    ∀ {l : List TextEditInfo}, x ∈ sortDescByStart l → x ∈ l := by
  intro l
  induction l with
  | nil => intro h; simp [sortDescByStart] at h
  | cons e rest ih =>
    intro h
    simp only [sortDescByStart] at h
    rcases mem_insertDescByStart h with h1 | h2
    · exact List.mem_cons.mpr (Or.inl h1)
    · exact List.mem_cons.mpr (Or.inr (ih h2))

/-- On a buffer with no continuation bytes (in particular an all-ASCII
buffer), every offset up to the length is a character boundary. -/
theorem ascii_isCharBoundary {buf : List Nat} (hbuf : ∀ b ∈ buf, b < 128)
    {i : Nat} (hi : i ≤ buf.length) : isCharBoundary buf i = true := by
  unfold isCharBoundary
  by_cases h0 : i = 0
  · simp [h0]
  · rw [if_neg h0]
    cases hg : buf.get? i with
    | none =>
      have := List.get?_eq_none.mp hg
      simp
      omega
    | some b =>
      have hb := hbuf b (List.get?_mem hg)
      show (if 128 ≤ b ∧ b < 192 then false else true) = true
      rw [if_neg (by omega)]

/-- The boundary proviso of the amended C2, stated on the buffer being
edited: along the fold over the (already sorted) edits, each edit's two
clamped bounds land on character boundaries of the buffer as it is at
that step. -/
def editsApplicable : List TextEditInfo → List Nat → Bool
  | [], _ => true
  | e :: rest, buf =>
    isCharBoundary buf (min e.span.start buf.length) &&
    isCharBoundary buf (min e.span.stop buf.length) &&
    editsApplicable rest
      (buf.take (min e.span.start buf.length) ++ e.replacement ++
        buf.drop (min e.span.stop buf.length))

/-- The fold of clamped replacements never panics when the spans are
ordered and every clamped bound lands on a character boundary of the
buffer being edited at that step. -/
theorem applyEditsFold_applicable :
    ∀ (edits : List TextEditInfo) (buf : List Nat),
    (∀ e ∈ edits, e.span.start ≤ e.span.stop) →
    editsApplicable edits buf = true →
    ∃ newBuf, applyEditsFold edits buf = some newBuf := by
  intro edits
  induction edits with
  | nil =>
    intro buf _ _
    exact ⟨buf, rfl⟩
  | cons e rest ih =>
    intro buf hspan happ
    simp only [editsApplicable, Bool.and_eq_true] at happ
    obtain ⟨⟨h1, h2⟩, h3⟩ := happ
    have hse : e.span.start ≤ e.span.stop := hspan e (List.mem_cons_self _ _)
    have hcond : min e.span.start buf.length ≤ min e.span.stop buf.length ∧
        min e.span.stop buf.length ≤ buf.length ∧
        isCharBoundary buf (min e.span.start buf.length) = true ∧
        isCharBoundary buf (min e.span.stop buf.length) = true :=
      ⟨by omega, by omega, h1, h2⟩
    obtain ⟨newBuf, hfold⟩ := ih _ (fun x hx => hspan x (List.mem_cons_of_mem _ hx)) h3
    refine ⟨newBuf, ?_⟩
    simp only [applyEditsFold, replaceRangeBytes, if_pos hcond]
    exact hfold

/-- An ASCII buffer with ASCII replacements satisfies the boundary
proviso: every offset up to the length is a boundary, and the fold keeps
the buffer ASCII. -/
theorem ascii_editsApplicable :
    ∀ (edits : List TextEditInfo) (buf : List Nat),
    (∀ e ∈ edits, ∀ b ∈ e.replacement, b < 128) →
    (∀ b ∈ buf, b < 128) →
    editsApplicable edits buf = true := by
  intro edits
  induction edits with
  | nil =>
    intro buf _ _
    rfl
  | cons e rest ih =>
    intro buf hrepl hbuf
    simp only [editsApplicable, Bool.and_eq_true]
    refine ⟨⟨ascii_isCharBoundary hbuf (by omega), ascii_isCharBoundary hbuf (by omega)⟩, ?_⟩
    refine ih _ (fun x hx => hrepl x (List.mem_cons_of_mem _ hx)) ?_
    intro b hb
    simp only [List.mem_append] at hb
    rcases hb with (hb | hb) | hb
    · exact hbuf b (List.take_subset _ _ hb)
    · exact hrepl e (List.mem_cons_self _ _) b hb
    · exact hbuf b (List.drop_subset _ _ hb)

/-! ## C1 and C2 -/

/-- C1: applying the TextEdits fix with spans 0..2 to X and 5..6 to Y, via
replace_in_buffer, to the buffer abcdef produces XcdeY with the insertion
point at byte offset 1, which is start plus replacement length of the edit
with the smallest original start. -/
theorem C1_edit_ordering :
    replace_in_buffer
      [⟨ascii "fix", .TextEdits
        [⟨⟨0, 2⟩, ascii "X", ascii "ab"⟩, ⟨⟨5, 6⟩, ascii "Y", ascii "f"⟩]⟩]
      0 ⟨ascii "abcdef", 3⟩ = some ⟨ascii "XcdeY", 1⟩ := rfl

/-- C2 counterexample: an edit with start = end = 1 (so start at most end)
applied to the two-byte buffer of one two-byte character makes
replace_in_buffer panic (none): the clamped offset 1 is not a character
boundary, and String::replace_range asserts boundaries even for an
insertion.  So the claim that replace_in_buffer never panics for all
ordered spans fails. -/
theorem C2_counterexample :
    (⟨⟨1, 1⟩, [88], []⟩ : TextEditInfo).span.start ≤
      (⟨⟨1, 1⟩, [88], []⟩ : TextEditInfo).span.stop ∧
    replace_in_buffer [⟨[], .TextEdits [⟨⟨1, 1⟩, [88], []⟩]⟩] 0 ⟨[195, 169], 0⟩ =
      none := ⟨Nat.le_refl 1, rfl⟩

/-- C2 (amended): for ordered spans, replace_in_buffer of a TextEdits fix
is total whenever every clamped bound lands on a UTF-8 character boundary
of the buffer being edited at that step (editsApplicable; the ASCII case
is one instance by ascii_editsApplicable), and the resulting insertion
point is at most the buffer length. -/
theorem C2_replace_total (fixes : List FixInfo) (selected : Nat) (ed : EditorSt)
    (title : List Nat) (edits : List TextEditInfo)
    (hsel : fixes.get? selected = some ⟨title, .TextEdits edits⟩)
    (hspan : ∀ e ∈ edits, e.span.start ≤ e.span.stop)
    (hbound : editsApplicable (sortDescByStart edits) ed.buffer = true) :
    ∃ ed2, replace_in_buffer fixes selected ed = some ed2 ∧
      ed2.insertion_point ≤ ed2.buffer.length := by
  obtain ⟨newBuf, hfold⟩ := applyEditsFold_applicable (sortDescByStart edits) ed.buffer
    (fun e he => hspan e (mem_sortDescByStart he)) hbound
  refine ⟨⟨newBuf,
    min (match (sortDescByStart edits).getLast? with
         | some e => e.span.start + e.replacement.length
         | none => ed.insertion_point) newBuf.length⟩, ?_, by simp⟩
  unfold replace_in_buffer
  rw [hsel]
  simp only [hfold]

/-- C2 witness: a non-ASCII buffer (a two-byte character then the letter
a) whose two edits have clamped bounds on character boundaries, so the
proviso holds beyond the ASCII case. -/
theorem C2_witness :
    ∃ ed2, replace_in_buffer
      [⟨ascii "fix", .TextEdits
        [⟨⟨0, 2⟩, ascii "X", [195, 169]⟩, ⟨⟨2, 3⟩, ascii "Y", ascii "a"⟩]⟩]
      0 ⟨[195, 169, 97], 0⟩ = some ed2 ∧
      ed2.insertion_point ≤ ed2.buffer.length :=
  C2_replace_total _ 0 _ (ascii "fix") _ rfl (by decide) (by decide)

/-! ## C5, C6, C10 -/

theorem update_content_ne (p : LspState) (t : List Nat) (hne : t ≠ [])
    (hh : hash_str t ≠ p.last_content_hash) :
    update_content p t =
      { p with
        last_content_hash := hash_str t,
        commandCh := trySend 32 (.UpdateContent t) p.commandCh } := by
  have hne2 : t.isEmpty = false := by
    cases t with
    | nil => exact absurd rfl hne
    | cons a l => rfl
  unfold update_content
  rw [hne2]
  simp only [Bool.false_eq_true, if_false]
  rw [if_pos hh]

theorem update_content_same (p : LspState) (t : List Nat) (hne : t ≠ [])
    (hh : hash_str t = p.last_content_hash) :
    update_content p t = p := by
  have hne2 : t.isEmpty = false := by
    cases t with
    | nil => exact absurd rfl hne
    | cons a l => rfl
  unfold update_content
  rw [hne2]
  simp only [Bool.false_eq_true, if_false]
  rw [if_neg (by simp [hh])]

/-- C5: calling update_content twice in succession with the same non-empty
text, on a provider whose stored fingerprint differs from the text and
whose command channel has room, forwards exactly one UpdateContent command:
the second call computes the fingerprint just stored and changes nothing. -/
theorem C5_debounce (p : LspState) (t : List Nat) (hne : t ≠ [])
    (hh : hash_str t ≠ p.last_content_hash) (hcap : p.commandCh.length < 32) :
    (update_content p t).commandCh = p.commandCh ++ [.UpdateContent t] ∧
    (update_content p t).last_content_hash = hash_str t ∧
    update_content (update_content p t) t = update_content p t := by
  have h1 := update_content_ne p t hne hh
  refine ⟨?_, ?_, ?_⟩
  · rw [h1]
    simp only [trySend, if_pos hcap]
  · rw [h1]
  · rw [h1]
    exact update_content_same _ t hne rfl

/-- C5 witness: a fresh provider and the one-byte text x, whose
fingerprint is not the initial zero. -/
theorem C5_witness :
    (update_content (initialState (ascii "repl:/session/repl")) (ascii "x")).commandCh =
      (initialState (ascii "repl:/session/repl")).commandCh ++
        [.UpdateContent (ascii "x")] ∧
    (update_content (initialState (ascii "repl:/session/repl"))
        (ascii "x")).last_content_hash = hash_str (ascii "x") ∧
    update_content (update_content (initialState (ascii "repl:/session/repl")) (ascii "x"))
        (ascii "x") =
      update_content (initialState (ascii "repl:/session/repl")) (ascii "x") :=
  C5_debounce _ _ (by decide) (by decide) (by decide)

theorem update_content_nil (p : LspState) :
    update_content p [] = { p with diagnostics := [] } := rfl

/-- C6: update_content with the empty text only clears the cached
diagnostics: the channels, the stored fingerprint and every other field
are unchanged, and no command is sent. -/
theorem C6_empty_clears (p : LspState) :
    update_content p [] = { p with diagnostics := [] } := update_content_nil p

/-- C10: the sequence update_content t, update_content of the empty text,
update_content t forwards exactly one UpdateContent command in total: the
empty call clears the diagnostics without resetting the fingerprint, so
the third call is suppressed and the cleared diagnostics stay empty. -/
theorem C10_clear_then_same (p : LspState) (t : List Nat) (hne : t ≠ [])
    (hh : hash_str t ≠ p.last_content_hash) (hcap : p.commandCh.length < 32) :
    update_content (update_content (update_content p t) []) t =
      update_content (update_content p t) [] ∧
    (update_content (update_content (update_content p t) []) t).commandCh =
      p.commandCh ++ [.UpdateContent t] ∧
    (update_content (update_content (update_content p t) []) t).diagnostics = [] := by
  have h1 := update_content_ne p t hne hh
  have h3 : update_content (update_content (update_content p t) []) t =
      update_content (update_content p t) [] := by
    rw [update_content_nil (update_content p t)]
    refine update_content_same _ t hne ?_
    rw [h1]
  refine ⟨h3, ?_, ?_⟩
  · rw [h3, update_content_nil (update_content p t), h1]
    simp only [trySend, if_pos hcap]
  · rw [h3, update_content_nil (update_content p t)]

/-- C10 witness: the fresh provider and the text x. -/
theorem C10_witness :
    update_content (update_content (update_content
        (initialState (ascii "repl:/session/repl")) (ascii "x")) []) (ascii "x") =
      update_content (update_content (initialState (ascii "repl:/session/repl"))
        (ascii "x")) [] ∧
    (update_content (update_content (update_content
        (initialState (ascii "repl:/session/repl")) (ascii "x")) []) (ascii "x")).commandCh =
      (initialState (ascii "repl:/session/repl")).commandCh ++
        [.UpdateContent (ascii "x")] ∧
    (update_content (update_content (update_content
        (initialState (ascii "repl:/session/repl")) (ascii "x")) [])
        (ascii "x")).diagnostics = [] :=
  C10_clear_then_same _ _ (by decide) (by decide) (by decide)

/-! ## C8 -/

/-- C8: two diagnostics emissions before one check_wake: the call returns
true, drains both responses with last-write-wins so the later list is
cached, a second check_wake returns false, and diagnostics() returns only
the later list. -/
theorem C8_wake_coalescing (p : LspState) (d1 d2 : List Json)
    (hcap : p.responseCh.length + 2 ≤ 32) :
    (check_wake (send_diagnostics d2 (send_diagnostics d1 p))).1 = true ∧
    (check_wake (send_diagnostics d2 (send_diagnostics d1 p))).2.diagnostics = d2 ∧
    (check_wake (check_wake (send_diagnostics d2 (send_diagnostics d1 p))).2).1 = false ∧
    (diagnostics (check_wake (send_diagnostics d2 (send_diagnostics d1 p))).2).1 = d2 := by
  have hq : send_diagnostics d2 (send_diagnostics d1 p) =
      { p with
        responseCh := p.responseCh ++ [.Diagnostics d1] ++ [.Diagnostics d2],
        wakeCh := true } := by
    unfold send_diagnostics trySend
    rw [if_pos (by omega : p.responseCh.length < 32)]
    simp only []
    rw [if_pos (by simp; omega)]
  rw [hq]
  have hwake : check_wake
      { p with
        responseCh := p.responseCh ++ [.Diagnostics d1] ++ [.Diagnostics d2],
        wakeCh := true } =
      (true, poll_responses
        { p with
          responseCh := p.responseCh ++ [.Diagnostics d1] ++ [.Diagnostics d2],
          wakeCh := false }) := by
    unfold check_wake
    rw [if_pos rfl]
  rw [hwake]
  have hpoll : ∀ w : LspState, w.responseCh = p.responseCh ++ [.Diagnostics d1] ++
      [.Diagnostics d2] → (poll_responses w).diagnostics = d2 := by
    intro w hw
    unfold poll_responses
    simp only [hw, List.foldl_append, List.foldl_cons, List.foldl_nil]
  have hdrained : ∀ w : LspState, (poll_responses w).responseCh = [] := fun w => rfl
  have hwakekept : ∀ w : LspState, (poll_responses w).wakeCh = w.wakeCh := fun w => rfl
  refine ⟨rfl, hpoll _ rfl, ?_, ?_⟩
  · show (check_wake (poll_responses _)).1 = false
    unfold check_wake
    rw [if_neg (by rw [hwakekept]; simp)]
  · show (diagnostics (poll_responses _)).1 = d2
    have hd : ∀ w : LspState, w.responseCh = [] → (diagnostics w).1 = w.diagnostics := by
      intro w hw
      show (poll_responses w).diagnostics = w.diagnostics
      unfold poll_responses
      rw [hw]
      rfl
    exact (hd (poll_responses _) (hdrained _)).trans (hpoll _ rfl)

/-- C8 witness: a fresh provider, the one-diagnostic list and the empty
list. -/
theorem C8_witness :
    (check_wake (send_diagnostics [] (send_diagnostics [Json.null]
        (initialState (ascii "repl:/session/repl"))))).1 = true ∧
    (check_wake (send_diagnostics [] (send_diagnostics [Json.null]
        (initialState (ascii "repl:/session/repl"))))).2.diagnostics = [] ∧
    (check_wake (check_wake (send_diagnostics [] (send_diagnostics [Json.null]
        (initialState (ascii "repl:/session/repl"))))).2).1 = false ∧
    (diagnostics (check_wake (send_diagnostics [] (send_diagnostics [Json.null]
        (initialState (ascii "repl:/session/repl"))))).2).1 = [] :=
  C8_wake_coalescing _ [Json.null] [] (by decide)

/-! ## C7 and C9: request correlation -/

/-- The request read loop returns exactly the result field of the first
id-matching message within the budget. -/
theorem request_core_eq (id : Int) : ∀ (reads : List (Option Msg)) (budget : Nat),
    request_core id reads budget = (firstResponseTo id reads budget).bind Msg.result := by
  intro reads
  induction reads with
  | nil =>
    intro budget
    cases budget <;> rfl
  | cons r rest ih =>
    intro budget
    cases budget with
    | zero => rfl
    | succ b =>
      cases r with
      | none =>
        simp only [request_core, firstResponseTo]
        exact ih b
      | some resp =>
        by_cases hid : (resp.id == some id) = true
        · simp only [request_core, firstResponseTo, hid, if_true]
          rfl
        · simp only [request_core, firstResponseTo, hid, if_false, Bool.false_eq_true]
          exact ih b

/-- C9: handling ExecuteCommand sends exactly one CommandExecuted flag,
true exactly when a connection exists and the first id-matching response
within the timeout carries a result value; no connection, timeout, or a
matching response without a result all give false. -/
theorem C9_execute_command (w : LspState) (command : List Nat) (arguments : List Json)
    (reads : List (Option Msg)) (budget : Nat) (hcap : w.responseCh.length < 32) :
    ∃ flag, (handle_execute_command w command arguments reads budget).responseCh =
        w.responseCh ++ [.CommandExecuted flag] ∧
      (flag = true ↔ ∃ c resp v, w.conn = some c ∧
        firstResponseTo c.next_id reads budget = some resp ∧ resp.result = some v) := by
  cases hconn : w.conn with
  | none =>
    refine ⟨false, ?_, ?_⟩
    · unfold handle_execute_command
      rw [hconn]
      simp only [trySend, if_pos hcap]
    · refine iff_of_false (by simp) ?_
      rintro ⟨c, resp, v, hc, _, _⟩
      exact Option.noConfusion hc
  | some c =>
    refine ⟨(request_core c.next_id reads budget).isSome, ?_, ?_⟩
    · unfold handle_execute_command
      rw [hconn]
      simp only [request, trySend, if_pos hcap]
    · rw [request_core_eq]
      cases hf : firstResponseTo c.next_id reads budget with
      | none =>
        refine iff_of_false (by simp) ?_
        rintro ⟨c2, resp, v, hc2, hfr, _⟩
        injection hc2 with hcc
        subst hcc
        rw [hf] at hfr
        exact Option.noConfusion hfr
      | some resp =>
        simp only [Option.some_bind]
        cases hres : resp.result with
        | none =>
          refine iff_of_false (by simp) ?_
          rintro ⟨c2, resp2, v, hc2, hfr, hres2⟩
          injection hc2 with hcc
          subst hcc
          rw [hf] at hfr
          injection hfr with hrr
          subst hrr
          rw [hres] at hres2
          exact Option.noConfusion hres2
        | some v =>
          simp only [Option.isSome_some, true_iff]
          exact ⟨c, resp, v, rfl, hf, hres⟩

/-- C9 witness: with a live connection and a matching response carrying a
result, the flag is true. -/
theorem C9_witness :
    ∃ flag, (handle_execute_command
        { initialState (ascii "repl:/session/repl") with conn := some ⟨7, []⟩ }
        (ascii "lint.fix") []
        [some ⟨ascii "2.0", some 7, none, none, some (Json.bool true), none⟩] 1).responseCh =
      (initialState (ascii "repl:/session/repl")).responseCh ++
        [.CommandExecuted flag] ∧
      (flag = true ↔ ∃ c resp v,
        ({ initialState (ascii "repl:/session/repl") with conn := some ⟨7, []⟩ }
          : LspState).conn = some c ∧
        firstResponseTo c.next_id
          [some ⟨ascii "2.0", some 7, none, none, some (Json.bool true), none⟩] 1 =
          some resp ∧ resp.result = some v) :=
  C9_execute_command _ (ascii "lint.fix") []
    [some ⟨ascii "2.0", some 7, none, none, some (Json.bool true), none⟩] 1 (by decide)

/-! ## C3 -/

/-- The poll the code performs equals the poll the spec describes applied
to only the reads before the first failed one: iter::from_fn ends the
stream at the first none. -/
theorem poll_eq_claim_untilNone (reads : List (Option Msg)) (budget : Nat) :
    poll_for_diagnostics reads budget =
      poll_for_diagnostics_claim ((msgsUntilNone reads).map some) budget := by
  unfold poll_for_diagnostics poll_for_diagnostics_claim
  rw [← List.map_take]
  have hfm : ∀ l : List Msg, (l.map some).filterMap id = l := by
    intro l
    induction l with
    | nil => rfl
    | cons x xs ih => simp [ih]
  rw [hfm]

/-- The publishDiagnostics notification used by the C3 inputs, with one
opaque diagnostic. -/
def c3_pubMsg : Msg :=
  ⟨ascii "2.0", none, some (ascii "textDocument/publishDiagnostics"),
    some (.obj [(ascii "uri", .str (ascii "repl:/session/repl")),
                (ascii "diagnostics", .arr [.obj []])]), none, none⟩

/-- A worker state with an established connection, for the C3 inputs. -/
def c3_state : LspState :=
  { initialState (ascii "repl:/session/repl") with conn := some ⟨1, []⟩ }

/-- C3 counterexample: a failed read (malformed frame or inner timeout)
followed by a publishDiagnostics notification, both inside the timeout
budget.  The spec-worded poll emits the diagnostic list, but the code's
from_fn stream stops at the failed read, so handling UpdateContent emits
no diagnostics response at all even though the notification arrived before
the timeout elapsed. -/
theorem C3_counterexample :
    poll_for_diagnostics_claim [none, some c3_pubMsg] 2 = some [.obj []] ∧
    poll_for_diagnostics [none, some c3_pubMsg] 2 = none ∧
    (handle_update_content c3_state (ascii "x") none [none, some c3_pubMsg] 2).responseCh =
      c3_state.responseCh := ⟨rfl, rfl, rfl⟩

/-- C3 (amended): with non-empty text and an established connection, the
worker reads messages only until the first failed read or the timeout:
it emits the diagnostic list of the first publishDiagnostics notification
among those reads (discarding non-matching messages before it), emits
nothing otherwise, and the poll equals the spec-worded poll restricted to
the reads before the first failure. -/
theorem C3_poll_first (w : LspState) (c : Conn) (content : List Nat) (spawn : Option Conn)
    (reads : List (Option Msg)) (budget : Nat)
    (hconn : w.conn = some c) (hne : content ≠ []) (hcap : w.responseCh.length < 32) :
    (∀ d, poll_for_diagnostics reads budget = some d →
      (handle_update_content w content spawn reads budget).responseCh =
        w.responseCh ++ [.Diagnostics d] ∧
      (handle_update_content w content spawn reads budget).wakeCh = true) ∧
    (poll_for_diagnostics reads budget = none →
      (handle_update_content w content spawn reads budget).responseCh = w.responseCh ∧
      (handle_update_content w content spawn reads budget).wakeCh = w.wakeCh) ∧
    poll_for_diagnostics reads budget =
      poll_for_diagnostics_claim ((msgsUntilNone reads).map some) budget := by
  have hne2 : content.isEmpty = false := by
    cases content with
    | nil => exact absurd rfl hne
    | cons a l => rfl
  have heq : handle_update_content w content spawn reads budget =
      match poll_for_diagnostics reads budget with
      | some d => send_diagnostics d
          { w with
            version := w.version + 1,
            conn := some (notify c (ascii "textDocument/didChange")
              (didChangeParams w.uri (w.version + 1) content)) }
      | none =>
          { w with
            version := w.version + 1,
            conn := some (notify c (ascii "textDocument/didChange")
              (didChangeParams w.uri (w.version + 1) content)) } := by
    unfold handle_update_content ensure_init
    rw [hne2, hconn]
    simp only [Option.isSome_some, if_true, Bool.false_eq_true, if_false]
    rw [hconn]
  refine ⟨?_, ?_, poll_eq_claim_untilNone reads budget⟩
  · intro d hd
    rw [heq, hd]
    constructor
    · show trySend 32 (.Diagnostics d) w.responseCh = w.responseCh ++ [.Diagnostics d]
      unfold trySend
      rw [if_pos hcap]
    · rfl
  · intro hd
    rw [heq, hd]
    exact ⟨rfl, rfl⟩

/-- C3 witness: a single successful publishDiagnostics read makes the
handler emit its diagnostic list with the wake set. -/
theorem C3_witness :
    (handle_update_content c3_state (ascii "x") none [some c3_pubMsg] 1).responseCh =
      c3_state.responseCh ++ [.Diagnostics [.obj []]] ∧
    (handle_update_content c3_state (ascii "x") none [some c3_pubMsg] 1).wakeCh = true :=
  (C3_poll_first c3_state ⟨1, []⟩ (ascii "x") none [some c3_pubMsg] 1 rfl (by decide)
    (by decide)).1 [.obj []] rfl

/-! ## C4 -/

/-- C4 counterexample: an envelope whose params field is a present null is
framed by write_msg and read back by read_msg as the envelope with params
absent (serde deserializes Option from null to none), so the round trip is
not the identity on every id/method/params/result/error combination. -/
theorem C4_counterexample :
    read_msg 1 (write_msg ⟨ascii "2.0", none, some (ascii "m"), some .null, none, none⟩) =
      some ⟨ascii "2.0", none, some (ascii "m"), none, none, none⟩ ∧
    (⟨ascii "2.0", none, some (ascii "m"), none, none, none⟩ : Msg) ≠
      ⟨ascii "2.0", none, some (ascii "m"), some .null, none, none⟩ := by
  refine ⟨rfl, ?_⟩
  intro h
  have hp := congrArg Msg.params h
  simp at hp

/-- C4 (amended): for every envelope whose optional payload fields are
not a present null, serializing with write_msg and parsing the produced
bytes with read_msg (with at least one header read step available) returns
the same envelope. -/
theorem C4_wire_roundtrip (m : Msg) (fuel : Nat) (hp : m.params ≠ some .null)
    (hr : m.result ≠ some .null) (he : m.error ≠ some .null) :
    read_msg (fuel + 1) (write_msg m) = some m :=
  read_msg_write_msg m fuel hp hr he

/-- C4 witness: a concrete request envelope with id, method and an object
params round-trips. -/
theorem C4_witness :
    read_msg 1 (write_msg ⟨ascii "2.0", some 5, some (ascii "initialize"),
      some (.obj [(ascii "processId", .num 42)]), none, none⟩) =
    some ⟨ascii "2.0", some 5, some (ascii "initialize"),
      some (.obj [(ascii "processId", .num 42)]), none, none⟩ :=
  C4_wire_roundtrip _ 0 (by simp) (by simp) (by simp)
